import Mathlib

/-!
Verification of the PortfolioOS computational core: a shallow embedding of
`portfolioos/portfolio/cost_basis.py`, `portfolioos/portfolio/reconciliation.py`,
`portfolioos/simulation/withdrawal.py`, `portfolioos/simulation/monte_carlo.py`,
`portfolioos/simulation/scenarios.py` and `portfolioos/analysis/statistics.py`.

Embedding conventions:
* Python floats are embedded as exact rationals (`ℚ`); the float literals used
  by the source (`1e-9`, `1e-6`, `0.01`, `1.2`, `0.8`, `0.10`, `0.04`) are exact
  in binary or appear only in comparisons, so the control flow of the source is
  reproduced faithfully by the rational embedding.
* ISO `YYYY-MM-DD` date strings are embedded as structured `Ymd` values
  (the formatting is injective and order-preserving, so nothing is lost).
* Python lists are Lean `List`s; a Python `dict` built by comprehension
  (later entries win) is embedded by searching the underlying list from the
  right; in-place mutation of tracker state is embedded by returning the
  updated tracker.
* A Python function that can `raise` is embedded as returning
  `CostBasisTracker × Except String …`: the first component is the tracker
  state when the call returns or raises (Python keeps whatever mutations
  happened before the `raise`), the second is the result or the error.
-/

/-- Tolerance used by `cost_basis.py` and `reconciliation.py` (`1e-9`). -/
def shareEpsilon : ℚ := 1 / 1000000000

/-- Share-count tolerance of `detect_discrepancies` (`1e-6`). -/
def shareTolerance : ℚ := 1 / 1000000

/-- Cost-basis tolerance of `detect_discrepancies` (`0.01`). -/
def costTolerance : ℚ := 1 / 100

/-- A calendar date `YYYY-MM-DD`; embeds the ISO date strings of the source. -/
structure Ymd where
  year : ℕ
  month : ℕ
  day : ℕ
deriving DecidableEq, Repr

/-- Day count of a Gregorian date from the civil epoch (valid for `year ≥ 1`,
which covers every ISO `YYYY-MM-DD` string the source can parse); embeds the
day arithmetic that `datetime.strptime` / `timedelta.days` perform in
`_holding_period`. -/
def daysFromCivil (dt : Ymd) : ℕ :=
  let y := if dt.month ≤ 2 then dt.year - 1 else dt.year
  let era := y / 400
  let yoe := y % 400
  let mp := (dt.month + 9) % 12
  let doy := (153 * mp + 2) / 5 + dt.day - 1
  let doe := yoe * 365 + yoe / 4 - yoe / 100 + doy
  era * 146097 + doe

/-- `(sell - acq).days` of `_holding_period`. -/
def daysBetween (acq selldate : Ymd) : ℤ :=
  (daysFromCivil selldate : ℤ) - (daysFromCivil acq : ℤ)

/-- Threshold `_LONG_TERM_DAYS = 365` of `cost_basis.py`. -/
def longTermDays : ℤ := 365

/-- `_holding_period` of `cost_basis.py`: `"long_term"` iff held strictly more
than 365 days. -/
def holding_period (acquire_date sell_date : Ymd) : String :=
  if longTermDays < daysBetween acquire_date sell_date then "long_term"
  else "short_term"

/-- `TaxLot` of `cost_basis.py` (a constructed lot always has
`remaining_qty` explicit, mirroring `add_buy` and `__post_init__`). -/
structure TaxLot where
  date : Ymd
  quantity : ℚ
  price : ℚ
  fees : ℚ
  remaining_qty : ℚ
  lot_id : String
deriving DecidableEq, Repr

/-- `DisposedLot` of `cost_basis.py`. -/
structure DisposedLot where
  lot_date : Ymd
  qty_sold : ℚ
  proceeds : ℚ
  cost_basis : ℚ
  gain_loss : ℚ
  holding_period : String
deriving DecidableEq, Repr

/-- `CostBasisTracker` state: the `lots` list and the `_next_lot_id` counter. -/
structure CostBasisTracker where
  lots : List TaxLot
  next_lot_id : ℕ
deriving DecidableEq, Repr

/-- `CostBasisTracker.get_total_shares`: sum of `remaining_qty` over all lots. -/
def get_total_shares (t : CostBasisTracker) : ℚ :=
  (t.lots.map (fun l => l.remaining_qty)).sum

/-- `CostBasisTracker.get_total_cost_basis`: sum of
`remaining_qty * price + fees * remaining_qty / quantity` over lots with
positive remaining quantity. -/
def get_total_cost_basis (t : CostBasisTracker) : ℚ :=
  (t.lots.map (fun l =>
    if l.remaining_qty ≤ 0 then 0
    else l.remaining_qty * l.price + l.fees * l.remaining_qty / l.quantity)).sum

/-- `CostBasisTracker.add_buy`: append a lot with `remaining_qty = quantity`
and a sequential `lot-N` id. -/
def add_buy (t : CostBasisTracker) (date : Ymd) (quantity price fees : ℚ) :
    CostBasisTracker × String :=
  let lid := "lot-" ++ toString t.next_lot_id
  (⟨t.lots ++ [⟨date, quantity, price, fees, quantity, lid⟩], t.next_lot_id + 1⟩,
   lid)

/-- The disposal loop of `_dispose_ordered`, iterating over the lots in the
given order.  The source first builds the sublist of lots with
`remaining_qty > 0` and then loops over it with an early break once
`remaining_to_sell <= 1e-9`; this single pass skips non-positive lots in
place, which performs the same disposals on the same lots in the same order
and leaves skipped lots untouched. -/
def sellFromLots (selldate : Ymd) (quantity total_proceeds : ℚ) :
    ℚ → List TaxLot → List DisposedLot × List TaxLot
  | _, [] => ([], [])
  | need, lot :: rest =>
    if need ≤ shareEpsilon then ([], lot :: rest)
    else if lot.remaining_qty ≤ 0 then
      let r := sellFromLots selldate quantity total_proceeds need rest
      (r.1, lot :: r.2)
    else
      let sell_from_lot := min lot.remaining_qty need
      let lot_cost := sell_from_lot * lot.price +
        lot.fees * sell_from_lot / lot.quantity
      let lot_proceeds := total_proceeds * (sell_from_lot / quantity)
      let dl : DisposedLot :=
        ⟨lot.date, sell_from_lot, lot_proceeds, lot_cost,
         lot_proceeds - lot_cost, holding_period lot.date selldate⟩
      let r := sellFromLots selldate quantity total_proceeds
        (need - sell_from_lot) rest
      (dl :: r.1, { lot with remaining_qty := lot.remaining_qty - sell_from_lot } :: r.2)

/-- `CostBasisTracker._dispose_ordered`: FIFO (`reverse = false`) or LIFO
(`reverse = true`) disposal; LIFO walks the lots from the back, mutating the
same lots (embedded by reversing, disposing, and reversing back). -/
def dispose_ordered (t : CostBasisTracker) (date : Ymd)
    (quantity price fees : ℚ) (reverse : Bool) :
    List DisposedLot × CostBasisTracker :=
  let total_proceeds := quantity * price - fees
  if reverse then
    let r := sellFromLots date quantity total_proceeds quantity t.lots.reverse
    (r.1, { t with lots := r.2.reverse })
  else
    let r := sellFromLots date quantity total_proceeds quantity t.lots
    (r.1, { t with lots := r.2 })

/-- Date order used by Python's `min(lot.date for lot in active_lots)`:
lexicographic on the ISO string, which is the chronological order on `Ymd`. -/
def ymdLe (a b : Ymd) : Bool :=
  a.year < b.year ∨ (a.year = b.year ∧
    (a.month < b.month ∨ (a.month = b.month ∧ a.day ≤ b.day)))

/-- `min` of a list of dates with a default for the empty list. -/
def minDate (d : Ymd) : List Ymd → Ymd
  | [] => d
  | x :: xs => minDate (if ymdLe x d then x else d) xs

/-- The share-reduction loop of `_sell_average_cost` (reduce lots
oldest-first, skipping empty lots, stopping once the residual is within
`1e-9`). -/
def reduceLots : ℚ → List TaxLot → List TaxLot
  | _, [] => []
  | need, lot :: rest =>
    if need ≤ shareEpsilon then lot :: rest
    else if lot.remaining_qty ≤ 0 then lot :: reduceLots need rest
    else
      let s := min lot.remaining_qty need
      { lot with remaining_qty := lot.remaining_qty - s } ::
        reduceLots (need - s) rest

/-- `CostBasisTracker._sell_average_cost`. -/
def sell_average_cost (t : CostBasisTracker) (date : Ymd)
    (quantity price fees : ℚ) : List DisposedLot × CostBasisTracker :=
  let total_shares := get_total_shares t
  let total_cost := get_total_cost_basis t
  let avg_cost_per_share := if 0 < total_shares then total_cost / total_shares else 0
  let total_proceeds := quantity * price - fees
  let cost_basis := quantity * avg_cost_per_share
  let gain := total_proceeds - cost_basis
  let active := (t.lots.filter (fun l => decide (0 < l.remaining_qty))).map
    (fun l => l.date)
  let earliest_date := match active with
    | [] => date
    | x :: xs => minDate x xs
  let period := holding_period earliest_date date
  ([⟨earliest_date, quantity, total_proceeds, cost_basis, gain, period⟩],
   { t with lots := reduceLots quantity t.lots })

/-- Lookup in `lot_map = {lot.lot_id: lot for lot in self.lots}`: a dict
comprehension lets a later lot with the same id overwrite an earlier one, so
the embedded lookup takes the last matching lot. -/
def findLotLast (lots : List TaxLot) (lid : String) : Option TaxLot :=
  (lots.filter (fun l => l.lot_id = lid)).getLast?

/-- Replace the first lot (from the left) whose id is `lid`. -/
def updateFirstLot (lid : String) (f : TaxLot → TaxLot) :
    List TaxLot → List TaxLot
  | [] => []
  | l :: ls => if l.lot_id = lid then f l :: ls else l :: updateFirstLot lid f ls

/-- Replace the last lot whose id is `lid` (the lot `lot_map[lid]` aliases). -/
def updateLastLot (lots : List TaxLot) (lid : String) (f : TaxLot → TaxLot) :
    List TaxLot :=
  (updateFirstLot lid f lots.reverse).reverse

/-- The disposal loop of `_sell_specific` over the caller-supplied lot ids;
returns the disposals, the mutated lots, and the residual
`remaining_to_sell`.  Ids were checked before the loop, so the `none` case of
the lookup is unreachable and skips. -/
def sellSpecificLoop (selldate : Ymd) (quantity total_proceeds : ℚ) :
    ℚ → List String → List TaxLot → List DisposedLot × List TaxLot × ℚ
  | need, [], lots => ([], lots, need)
  | need, lid :: rest, lots =>
    if need ≤ shareEpsilon then ([], lots, need)
    else
      match findLotLast lots lid with
      | none => sellSpecificLoop selldate quantity total_proceeds need rest lots
      | some lot =>
        let sell_from_lot := min lot.remaining_qty need
        let lot_cost := sell_from_lot * lot.price +
          lot.fees * sell_from_lot / lot.quantity
        let lot_proceeds := total_proceeds * (sell_from_lot / quantity)
        let dl : DisposedLot :=
          ⟨lot.date, sell_from_lot, lot_proceeds, lot_cost,
           lot_proceeds - lot_cost, holding_period lot.date selldate⟩
        let lots' := updateLastLot lots lid
          (fun l => { l with remaining_qty := l.remaining_qty - sell_from_lot })
        let r := sellSpecificLoop selldate quantity total_proceeds
          (need - sell_from_lot) rest lots'
        (dl :: r.1, r.2.1, r.2.2)

/-- `CostBasisTracker._sell_specific`: validate that every id names a lot
(before any mutation), then dispose from the listed lots in order; the
residual check happens only after the loop, so an under-funded id list
raises with the listed lots already reduced. -/
def sell_specific (t : CostBasisTracker) (date : Ymd)
    (quantity price fees : ℚ) (lot_ids : List String) :
    CostBasisTracker × Except String (List DisposedLot) :=
  if lot_ids.any (fun lid => !(t.lots.any (fun l => l.lot_id = lid))) then
    (t, Except.error "Lot not found")
  else
    let total_proceeds := quantity * price - fees
    let r := sellSpecificLoop date quantity total_proceeds quantity lot_ids t.lots
    if shareEpsilon < r.2.2 then
      ({ t with lots := r.2.1 }, Except.error "Insufficient shares in specified lots")
    else
      ({ t with lots := r.2.1 }, Except.ok r.1)

/-- `CostBasisTracker.sell`: validate total availability, then dispatch on the
method string.  The returned tracker is the state after the call, also when
the call raises. -/
def sell (t : CostBasisTracker) (date : Ymd) (quantity price fees : ℚ)
    (method : String) (lot_ids : List String) :
    CostBasisTracker × Except String (List DisposedLot) :=
  let total_available := get_total_shares t
  if total_available + shareEpsilon < quantity then
    (t, Except.error "Insufficient shares")
  else if method = "fifo" then
    let r := dispose_ordered t date quantity price fees false
    (r.2, Except.ok r.1)
  else if method = "lifo" then
    let r := dispose_ordered t date quantity price fees true
    (r.2, Except.ok r.1)
  else if method = "average_cost" then
    let r := sell_average_cost t date quantity price fees
    (r.2, Except.ok r.1)
  else if method = "specific_id" then
    if lot_ids = [] then
      (t, Except.error "lot_ids required for specific_id method")
    else sell_specific t date quantity price fees lot_ids
  else
    (t, Except.error "Unknown method")

/-- `_apply_split` of `reconciliation.py`: for a positive ratio multiply every
lot's `quantity` and `remaining_qty` by the ratio and divide its `price` by
the ratio; a non-positive ratio is a no-op. -/
def apply_split (t : CostBasisTracker) (ratio : ℚ) : CostBasisTracker :=
  if ratio ≤ 0 then t
  else
    { t with lots := t.lots.map (fun l =>
        { l with
          quantity := l.quantity * ratio,
          remaining_qty := l.remaining_qty * ratio,
          price := l.price / ratio }) }

/-- A computed or stored holding record, as consumed by
`detect_discrepancies` (`account_id`, `symbol`, `shares`, `cost_basis`). -/
structure Holding where
  account_id : String
  symbol : String
  shares : ℚ
  cost_basis : ℚ
deriving DecidableEq, Repr

/-- A value carried by a discrepancy record: the numeric fields carry floats,
the `existence` field carries the strings `"missing"`/`"present"`. -/
inductive DValue where
  | num (q : ℚ)
  | tag (s : String)
deriving DecidableEq, Repr

/-- A discrepancy record of `detect_discrepancies`. -/
structure Discrepancy where
  account_id : String
  symbol : String
  field : String
  computed_value : DValue
  stored_value : DValue
deriving DecidableEq, Repr

/-- The `(account_id, symbol)` key of a holding. -/
def holdingKey (h : Holding) : String × String := (h.account_id, h.symbol)

/-- `computed_map.get(key)` where the map is a dict comprehension over the
holdings list (later entries win). -/
def holdingLookup (hs : List Holding) (k : String × String) : Option Holding :=
  (hs.filter (fun h => holdingKey h = k)).getLast?

/-- Order on keys used by Python's `sorted(all_keys)`: lexicographic on the
string pair. -/
def keyLe (a b : String × String) : Bool :=
  a.1 < b.1 ∨ (a.1 = b.1 ∧ a.2 ≤ b.2)

/-- Insert into a sorted key list. -/
def insertKey (k : String × String) :
    List (String × String) → List (String × String)
  | [] => [k]
  | x :: xs => if keyLe k x then k :: x :: xs else x :: insertKey k xs

/-- Insertion sort realising Python's `sorted`. -/
def sortKeys : List (String × String) → List (String × String)
  | [] => []
  | x :: xs => insertKey x (sortKeys xs)

/-- `all_keys = set(computed_map) | set(stored_map)`, iterated in sorted
order. -/
def allKeys (computed stored : List Holding) : List (String × String) :=
  sortKeys ((computed.map holdingKey ++ stored.map holdingKey).dedup)

/-- `_compare_field`: emit one record when the two values differ by more than
the tolerance, carrying both values. -/
def compare_field (k : String × String) (field_name : String)
    (c_val s_val tolerance : ℚ) : List Discrepancy :=
  if tolerance < |c_val - s_val| then
    [⟨k.1, k.2, field_name, DValue.num c_val, DValue.num s_val⟩]
  else []

/-- The per-key body of the `detect_discrepancies` loop. -/
def reportKey (computed stored : List Holding) (k : String × String) :
    List Discrepancy :=
  match holdingLookup computed k, holdingLookup stored k with
  | none, none =>
    [⟨k.1, k.2, "existence", DValue.tag "missing", DValue.tag "missing"⟩]
  | none, some _ =>
    [⟨k.1, k.2, "existence", DValue.tag "missing", DValue.tag "present"⟩]
  | some _, none =>
    [⟨k.1, k.2, "existence", DValue.tag "present", DValue.tag "missing"⟩]
  | some c, some s =>
    compare_field k "shares" c.shares s.shares shareTolerance ++
      compare_field k "cost_basis" c.cost_basis s.cost_basis costTolerance

/-- `detect_discrepancies` of `reconciliation.py`. -/
def detect_discrepancies (computed stored : List Holding) : List Discrepancy :=
  (allKeys computed stored).flatMap (reportKey computed stored)

/-- `constant_dollar_withdrawal` of `withdrawal.py`. -/
def constant_dollar_withdrawal (initial_withdrawal : ℚ) (year : ℕ)
    (inflation_rate : ℚ) : ℚ :=
  initial_withdrawal * (1 + inflation_rate) ^ year

/-- `guyton_klinger_withdrawal` of `withdrawal.py`: inflation-adjusted base,
then the inflation rule (skip the bump when the portfolio declined and the
current rate already exceeds the initial rate, recomputing the rate), then
the capital-preservation cut (rate above 120% of the initial rate), then the
prosperity raise (rate below 80%); the rate is not recomputed after a cut or
raise. -/
def guyton_klinger_withdrawal (initial_withdrawal : ℚ) (year : ℕ)
    (inflation_rate portfolio_value previous_portfolio_value : ℚ) : ℚ :=
  if year = 0 then initial_withdrawal
  else
    let base0 := initial_withdrawal * (1 + inflation_rate) ^ year
    let initial_rate := initial_withdrawal / previous_portfolio_value
    let declined := portfolio_value < previous_portfolio_value
    let rate0 := base0 / portfolio_value
    let skip := declined ∧ initial_rate < rate0
    let base1 := if skip then
      initial_withdrawal * (1 + inflation_rate) ^ (year - 1) else base0
    let rate1 := if skip then base1 / portfolio_value else rate0
    let base2 := if initial_rate * (6 / 5) < rate1 then base1 * (1 - 1 / 10)
      else base1
    if rate1 < initial_rate * (4 / 5) then base2 * (1 + 1 / 10) else base2

/-- Modelled from the spec: the seeded generator behind
`np.random.default_rng(seed).integers(0, n, size=…)` in `bootstrap_returns`
lives in NumPy, outside this repository; the spec's only contract for it is
that the draws are a deterministic function of the seed ("Same seed ⇒
bit-identical output").  It is embedded as an arbitrary fixed pure function
of the seed and the flat position `(i, j)`. -/
def sampleIndex (seed n i j : ℕ) : ℕ :=
  if n = 0 then 0 else (seed * 75 + i * 31 + j * 17 + 11) % n

/-- `bootstrap_returns` of `statistics.py`: reject an empty historical
series, then draw with replacement; the `(n_samples, n_years)` index matrix
is embedded as the indexing function of its entries. -/
def bootstrap_returns (historical_returns : List ℚ) (n_samples n_years : ℕ)
    (seed : ℕ) : Except String (ℕ → ℕ → ℚ) :=
  if historical_returns.isEmpty then
    Except.error "historical_returns must not be empty"
  else
    Except.ok (fun i j =>
      historical_returns.getD
        (sampleIndex seed historical_returns.length i j) 0)

/-- Result of a simulation: the `(n_trials, n_years+1)` matrix of portfolio
values, stored as its list of year-columns (entry `(trial i, year j)` is row
`i` of column `j`), and the success rate.  The percentile summary (and the
median final value of `run_scenario`) is computed from this matrix by NumPy
interpolation and is referenced by no claim, so it is not embedded. -/
structure SimResult where
  portfolioValues : List (List ℚ)
  successRate : ℚ
deriving DecidableEq, Repr

/-- The year loop shared by `run_simulation` and `run_scenario`: starting
from column `yr` with the previous column at hand (Python reads
`portfolio[:, max(0, yr - 1)]`, which is the current column when `yr = 0`),
emit the next `k` columns. -/
def runYears (step : ℕ → List ℚ → List ℚ → List ℚ) :
    ℕ → ℕ → List ℚ → List ℚ → List (List ℚ)
  | 0, _, _, _ => []
  | k + 1, yr, prevCol, cur =>
    let next := step yr prevCol cur
    next :: runYears step k (yr + 1) cur next

/-- One year of `run_simulation`: grow each trial by its sampled return,
subtract the (scalar) inflation-adjusted withdrawal, floor at 0. -/
def simStep (ret : ℕ → ℕ → ℚ) (withdrawals : ℕ → ℚ) (yr : ℕ)
    (cur : List ℚ) : List ℚ :=
  cur.enum.map (fun p => max (p.2 * (1 + ret p.1 yr) - withdrawals yr) 0)

/-- `success_rate = float(np.mean(portfolio[:, -1] > 0))`: the fraction of
trials whose final-column value is strictly positive. -/
def successRateOf (cols : List (List ℚ)) (nTrials : ℕ) : ℚ :=
  (((cols.getLastD []).countP (fun v => decide (0 < v)) : ℕ) : ℚ) / (nTrials : ℚ)

/-- `run_simulation` of `monte_carlo.py` (seeded). -/
def run_simulation (initial_portfolio annual_withdrawal : ℚ)
    (return_distribution : List ℚ) (n_trials n_years : ℕ)
    (inflation_rate : ℚ) (seed : ℕ) : Except String SimResult :=
  match bootstrap_returns return_distribution n_trials n_years seed with
  | Except.error e => Except.error e
  | Except.ok ret =>
    let withdrawals := fun yr => annual_withdrawal * (1 + inflation_rate) ^ yr
    let col0 := List.replicate n_trials initial_portfolio
    let cols := col0 ::
      runYears (fun yr _ cur => simStep ret withdrawals yr cur) n_years 0 col0 col0
    Except.ok ⟨cols, successRateOf cols n_trials⟩

/-- A life event record of `scenarios.py` (`year`, `type`, `amount`). -/
structure LifeEventRec where
  year : ℤ
  etype : String
  amount : ℚ
deriving DecidableEq, Repr

/-- `_compute_event_adjustment`: windfalls and income changes add, expenses
subtract, anything else (including `savings_rate_change`) has no effect. -/
def compute_event_adjustment (events : List LifeEventRec) : ℚ :=
  events.foldl (fun adjustment e =>
    if e.etype = "windfall" then adjustment + e.amount
    else if e.etype = "expense" then adjustment - e.amount
    else if e.etype = "income_change" then adjustment + e.amount
    else adjustment) 0

/-- `_compute_withdrawal` of `scenarios.py`: per-trial withdrawal vector for
one year.  The Guyton-Klinger branch clamps both the current and previous
per-trial portfolio values to a minimum of `1.0` before calling the
guardrail function; an unknown strategy falls back to constant-dollar. -/
def compute_withdrawal (strategy : String) (initial_withdrawal : ℚ)
    (year : ℕ) (inflation_rate : ℚ) (portfolio_values : List ℚ)
    (initial_portfolio : ℚ) (prev_portfolio : List ℚ) : List ℚ :=
  if strategy = "constant_dollar" then
    List.replicate portfolio_values.length
      (constant_dollar_withdrawal initial_withdrawal year inflation_rate)
  else if strategy = "constant_percentage" then
    let rate := if 0 < initial_portfolio then
      initial_withdrawal / initial_portfolio else 1 / 25
    portfolio_values.map (fun v => v * rate)
  else if strategy = "guyton_klinger" then
    List.zipWith (fun pv prev =>
      guyton_klinger_withdrawal initial_withdrawal year inflation_rate
        (max pv 1) (max prev 1)) portfolio_values prev_portfolio
  else
    List.replicate portfolio_values.length
      (constant_dollar_withdrawal initial_withdrawal year inflation_rate)

/-- One year of `run_scenario`: per-trial withdrawal, the scalar life-event
adjustment for the year, then grow, subtract, adjust and floor at 0. -/
def scenStep (ret : ℕ → ℕ → ℚ) (strategy : String)
    (annual_withdrawal inflation_rate initial_portfolio : ℚ)
    (life_events : List LifeEventRec) (yr : ℕ)
    (prevCol cur : List ℚ) : List ℚ :=
  let w := compute_withdrawal strategy annual_withdrawal yr inflation_rate
    cur initial_portfolio prevCol
  let adj := compute_event_adjustment
    (life_events.filter (fun e => e.year = (yr : ℤ)))
  (cur.zip w).enum.map (fun p =>
    max (p.2.1 * (1 + ret p.1 yr) - p.2.2 + adj) 0)

/-- `run_scenario` of `scenarios.py` (seeded). -/
def run_scenario (initial_portfolio annual_withdrawal : ℚ)
    (return_distribution : List ℚ) (withdrawal_strategy : String)
    (life_events : List LifeEventRec) (inflation_rate : ℚ)
    (n_trials n_years : ℕ) (seed : ℕ) : Except String SimResult :=
  match bootstrap_returns return_distribution n_trials n_years seed with
  | Except.error e => Except.error e
  | Except.ok ret =>
    let col0 := List.replicate n_trials initial_portfolio
    let cols := col0 ::
      runYears (scenStep ret withdrawal_strategy annual_withdrawal
        inflation_rate initial_portfolio life_events) n_years 0 col0 col0
    Except.ok ⟨cols, successRateOf cols n_trials⟩

/-- Total `qty_sold` over a list of disposals. -/
def sumQtySold (ds : List DisposedLot) : ℚ :=
  (ds.map (fun d => d.qty_sold)).sum

/-- Total `proceeds` over a list of disposals. -/
def sumProceeds (ds : List DisposedLot) : ℚ :=
  (ds.map (fun d => d.proceeds)).sum

/-- Total remaining shares of a lot list (`get_total_shares` on the lots). -/
def lotsShares (lots : List TaxLot) : ℚ :=
  (lots.map (fun l => l.remaining_qty)).sum

/-- Sum of the positive parts of the remaining quantities. -/
def posShares (lots : List TaxLot) : ℚ :=
  (lots.map (fun l => max l.remaining_qty 0)).sum

theorem sumQtySold_nil : sumQtySold [] = 0 := rfl

theorem sumQtySold_cons (d : DisposedLot) (ds : List DisposedLot) :
    sumQtySold (d :: ds) = d.qty_sold + sumQtySold ds := by
  simp [sumQtySold]

theorem sumProceeds_cons (d : DisposedLot) (ds : List DisposedLot) :
    sumProceeds (d :: ds) = d.proceeds + sumProceeds ds := by
  simp [sumProceeds]

theorem lotsShares_cons (l : TaxLot) (ls : List TaxLot) :
    lotsShares (l :: ls) = l.remaining_qty + lotsShares ls := by
  simp [lotsShares]

theorem posShares_cons (l : TaxLot) (ls : List TaxLot) :
    posShares (l :: ls) = max l.remaining_qty 0 + posShares ls := by
  simp [posShares]

theorem lotsShares_reverse (ls : List TaxLot) :
    lotsShares ls.reverse = lotsShares ls := by
  simp [lotsShares, List.map_reverse, List.sum_reverse]

theorem posShares_reverse (ls : List TaxLot) :
    posShares ls.reverse = posShares ls := by
  simp [posShares, List.map_reverse, List.sum_reverse]

theorem lotsShares_le_posShares (ls : List TaxLot) :
    lotsShares ls ≤ posShares ls := by
  induction ls with
  | nil => simp [lotsShares, posShares]
  | cons l rest ih =>
    rw [lotsShares_cons, posShares_cons]
    have : l.remaining_qty ≤ max l.remaining_qty 0 := le_max_left _ _
    linarith

/-- The disposal loop updates the lots by exactly the shares it reports
sold: the remaining-share total drops by `sumQtySold`. -/
theorem sellFromLots_shares (d : Ymd) (q tp : ℚ) (lots : List TaxLot) :
    ∀ need : ℚ,
      lotsShares (sellFromLots d q tp need lots).2 =
        lotsShares lots - sumQtySold (sellFromLots d q tp need lots).1 := by
  induction lots with
  | nil => intro need; simp [sellFromLots, lotsShares, sumQtySold]
  | cons lot rest ih =>
    intro need
    rw [sellFromLots]
    split_ifs with hbreak hskip
    · simp [sumQtySold]
    · dsimp only
      simp only [lotsShares_cons, sumQtySold_cons]
      rw [ih need]
      ring
    · dsimp only
      simp only [lotsShares_cons, sumQtySold_cons]
      rw [ih (need - min lot.remaining_qty need)]
      ring

/-- With a nonnegative request the reported sold total is nonnegative and
never exceeds the request. -/
theorem sellFromLots_sold_bounds (d : Ymd) (q tp : ℚ) (lots : List TaxLot) :
    ∀ need : ℚ, 0 ≤ need →
      0 ≤ sumQtySold (sellFromLots d q tp need lots).1 ∧
        sumQtySold (sellFromLots d q tp need lots).1 ≤ need := by
  induction lots with
  | nil => intro need h; simp [sellFromLots, sumQtySold, h]
  | cons lot rest ih =>
    intro need h
    rw [sellFromLots]
    split_ifs with hbreak hskip
    · simp [sumQtySold, h]
    · exact ih need h
    · have hrem : 0 < lot.remaining_qty := lt_of_not_ge hskip
      have heps : (0 : ℚ) < shareEpsilon := by norm_num [shareEpsilon]
      have hneed : 0 < need := lt_of_le_of_lt (le_of_lt heps) (lt_of_not_ge hbreak)
      have hmin0 : 0 ≤ min lot.remaining_qty need :=
        le_min (le_of_lt hrem) (le_of_lt hneed)
      have hminle : min lot.remaining_qty need ≤ need := min_le_right _ _
      have hb := ih (need - min lot.remaining_qty need) (by linarith)
      dsimp only
      rw [sumQtySold_cons]
      dsimp only
      constructor
      · linarith [hb.1]
      · linarith [hb.2]

/-- The loop's final shortfall is within the `1e-9` break tolerance or
bounded by the shortfall against the positive remaining shares. -/
theorem sellFromLots_shortfall (d : Ymd) (q tp : ℚ) (lots : List TaxLot) :
    ∀ need : ℚ,
      need - sumQtySold (sellFromLots d q tp need lots).1 ≤ shareEpsilon ∨
      need - sumQtySold (sellFromLots d q tp need lots).1 ≤
        need - posShares lots := by
  induction lots with
  | nil => intro need; right; simp [sellFromLots, sumQtySold, posShares]
  | cons lot rest ih =>
    intro need
    rw [sellFromLots]
    split_ifs with hbreak hskip
    · left
      simpa [sumQtySold] using hbreak
    · rcases ih need with hl | hr
      · exact Or.inl hl
      · right
        dsimp only
        rw [posShares_cons, max_eq_right hskip]
        linarith
    · have hrem : 0 < lot.remaining_qty := lt_of_not_ge hskip
      dsimp only
      rw [sumQtySold_cons]
      dsimp only
      by_cases hc : lot.remaining_qty ≤ need
      · rw [min_eq_left hc]
        rcases ih (need - lot.remaining_qty) with hl | hr
        · left
          linarith
        · right
          rw [posShares_cons, max_eq_left (le_of_lt hrem)]
          linarith
      · -- the lot covers the whole residual: the shortfall drops to 0
        have hlt : need < lot.remaining_qty := lt_of_not_ge hc
        rw [min_eq_right (le_of_lt hlt)]
        left
        have heps : (0 : ℚ) < shareEpsilon := by norm_num [shareEpsilon]
        have hb := sellFromLots_sold_bounds d q tp rest (need - need)
          (by linarith)
        linarith [hb.1, hb.2]

/-- Per-lot proceeds are allocated proportionally, so they sum to the total
proceeds scaled by the fraction of the request actually sold. -/
theorem sellFromLots_proceeds (d : Ymd) (q tp : ℚ) (lots : List TaxLot) :
    ∀ need : ℚ,
      sumProceeds (sellFromLots d q tp need lots).1 =
        tp * sumQtySold (sellFromLots d q tp need lots).1 / q := by
  induction lots with
  | nil => intro need; simp [sellFromLots, sumProceeds, sumQtySold]
  | cons lot rest ih =>
    intro need
    rw [sellFromLots]
    split_ifs with hbreak hskip
    · simp [sumProceeds, sumQtySold]
    · exact ih need
    · dsimp only
      rw [sumProceeds_cons, sumQtySold_cons]
      dsimp only
      rw [ih (need - min lot.remaining_qty need)]
      ring

/-- C5: on a tracker holding one lot of 100 shares bought at $50 on
2023-01-01 with zero fees, a FIFO sell of 100 shares at $80 on 2024-06-01
with zero fees returns exactly one `DisposedLot` with proceeds 8000, cost
basis 5000, gain 3000 and holding period `long_term`; and (for the shared
classifier used by every method) the holding period is `long_term` iff the
day difference between sale and acquisition is strictly greater than 365. -/
theorem fifo_long_term_example_and_holding_rule :
    (sell ⟨[⟨⟨2023, 1, 1⟩, 100, 50, 0, 100, "lot-0"⟩], 1⟩ ⟨2024, 6, 1⟩
        100 80 0 "fifo" []).2 =
      Except.ok [⟨⟨2023, 1, 1⟩, 100, 8000, 5000, 3000, "long_term"⟩] ∧
    ∀ a s : Ymd, holding_period a s = "long_term" ↔ 365 < daysBetween a s := by
  refine ⟨?_, fun a s => ?_⟩
  · norm_num [sell, dispose_ordered, sellFromLots, get_total_shares,
      shareEpsilon, holding_period, daysBetween, daysFromCivil, longTermDays]
  unfold holding_period longTermDays
  by_cases h : (365 : ℤ) < daysBetween a s
  · simp [h]
  · rw [if_neg h]
    simp only [h, iff_false]
    decide

/-- C4: with the seeded generator embedded as a pure function of the seed,
two calls to `run_simulation` with identical arguments and equal seeds
return identical `portfolio_values` matrices. -/
theorem run_simulation_deterministic (initial w : ℚ) (dist : List ℚ)
    (nT nY : ℕ) (infl : ℚ) (seed1 seed2 : ℕ) (h : seed1 = seed2) :
    (run_simulation initial w dist nT nY infl seed1).map SimResult.portfolioValues =
      (run_simulation initial w dist nT nY infl seed2).map SimResult.portfolioValues := by
  rw [h]

/-- Witness for C4 at a concrete seed. -/
theorem run_simulation_deterministic_witness :
    (7 : ℕ) = 7 ∧
    (run_simulation 100 4 [1 / 20] 2 3 (3 / 100) 7).map SimResult.portfolioValues =
      (run_simulation 100 4 [1 / 20] 2 3 (3 / 100) 7).map SimResult.portfolioValues :=
  ⟨rfl, run_simulation_deterministic 100 4 [1 / 20] 2 3 (3 / 100) 7 7 rfl⟩

/-- C2 counterexample: at year 1 with inflation rate `0.7`, doubling the
portfolio (100 → 200) fires no guardrail (the withdrawal rate `6.8/200`
sits between 80% and 120% of the initial rate `4/100`), so the result
equals the plain inflation-adjusted base instead of exceeding it. -/
theorem guyton_klinger_doubling_not_always_above_base :
    ¬ (4 * (1 + 7 / 10 : ℚ) ^ 1 <
        guyton_klinger_withdrawal 4 1 (7 / 10) 200 100) ∧
    guyton_klinger_withdrawal 4 1 (7 / 10) 200 100 = 34 / 5 := by
  constructor
  · norm_num [guyton_klinger_withdrawal]
  · norm_num [guyton_klinger_withdrawal]

/-- C2 amended: for year ≥ 1, positive initial withdrawal and previous
portfolio value, and a nonnegative inflation rate small enough that the
accumulated factor `(1+i)^year` stays below `8/5`, doubling the portfolio
fires the prosperity rule and yields strictly more than the
inflation-adjusted base, and halving fires the inflation and
capital-preservation rules and yields strictly less. -/
theorem guyton_klinger_guardrails (W p i : ℚ) (y : ℕ) (hy : 1 ≤ y)
    (hW : 0 < W) (hp : 0 < p) (hi : 0 ≤ i) (hb : (1 + i) ^ y < 8 / 5) :
    W * (1 + i) ^ y < guyton_klinger_withdrawal W y i (2 * p) p ∧
    guyton_klinger_withdrawal W y i (p / 2) p < W * (1 + i) ^ y := by
  have hy0 : y ≠ 0 := by omega
  have h1i : (1 : ℚ) ≤ 1 + i := by linarith
  have hpos : (0 : ℚ) < 1 + i := by linarith
  have hpow_pos : (0 : ℚ) < (1 + i) ^ y := pow_pos hpos y
  have hpow1 : (1 : ℚ) ≤ (1 + i) ^ y := by
    calc (1 : ℚ) = 1 ^ y := (one_pow y).symm
    _ ≤ (1 + i) ^ y := pow_le_pow_left₀ (by norm_num) h1i y
  have hpow_pos' : (0 : ℚ) < (1 + i) ^ (y - 1) := pow_pos hpos (y - 1)
  have hpow1' : (1 : ℚ) ≤ (1 + i) ^ (y - 1) := by
    calc (1 : ℚ) = 1 ^ (y - 1) := (one_pow _).symm
    _ ≤ (1 + i) ^ (y - 1) := pow_le_pow_left₀ (by norm_num) h1i _
  have hysucc : y - 1 + 1 = y := by omega
  have hWp : (0 : ℚ) < W * p := mul_pos hW hp
  constructor
  · -- doubling: only the prosperity rule fires
    unfold guyton_klinger_withdrawal
    rw [if_neg hy0]
    dsimp only
    have hnd : ¬ (2 * p < p) := by linarith
    have hskip : ¬ ((2 * p < p) ∧ W / p < W * (1 + i) ^ y / (2 * p)) :=
      fun hc => hnd hc.1
    simp only [if_neg hskip]
    have hcap : ¬ (W / p * (6 / 5) < W * (1 + i) ^ y / (2 * p)) := by
      rw [not_lt, div_mul_eq_mul_div, div_le_div_iff (by linarith) hp]
      nlinarith
    simp only [if_neg hcap]
    have hflo : W * (1 + i) ^ y / (2 * p) < W / p * (4 / 5) := by
      rw [div_mul_eq_mul_div, div_lt_div_iff (by linarith) hp]
      nlinarith
    simp only [if_pos hflo]
    nlinarith [mul_pos hW hpow_pos]
  · -- halving: the inflation rule skips the bump, then the cut fires
    unfold guyton_klinger_withdrawal
    rw [if_neg hy0]
    dsimp only
    have hhalf : (0 : ℚ) < p / 2 := by linarith
    have hd : p / 2 < p := by linarith
    have hrate : W / p < W * (1 + i) ^ y / (p / 2) := by
      rw [div_lt_div_iff hp hhalf]
      nlinarith
    simp only [if_pos (And.intro hd hrate)]
    have hcap : W / p * (6 / 5) < W * (1 + i) ^ (y - 1) / (p / 2) := by
      rw [div_mul_eq_mul_div, div_lt_div_iff hp hhalf]
      nlinarith
    simp only [if_pos hcap]
    have hflo : ¬ (W * (1 + i) ^ (y - 1) / (p / 2) < W / p * (4 / 5)) := by
      rw [not_lt, div_mul_eq_mul_div, div_le_div_iff hp hhalf]
      nlinarith
    simp only [if_neg hflo]
    rw [← hysucc, pow_succ]
    simp only [Nat.add_sub_cancel]
    nlinarith [mul_pos hW hpow_pos']

/-- C7: a split with positive ratio multiplies every lot's `quantity` and
`remaining_qty` by the ratio and divides its `price` by the ratio, leaving
the total cost basis unchanged in exact arithmetic; a split with ratio ≤ 0
leaves the tracker completely unchanged. -/
theorem split_scales_lots_and_preserves_basis (t : CostBasisTracker) (r : ℚ) :
    (0 < r →
      ((apply_split t r).lots = t.lots.map (fun l =>
        { l with
          quantity := l.quantity * r,
          remaining_qty := l.remaining_qty * r,
          price := l.price / r }) ∧
       get_total_cost_basis (apply_split t r) = get_total_cost_basis t)) ∧
    (r ≤ 0 → apply_split t r = t) := by
  constructor
  · intro hr
    have hne : ¬ (r ≤ 0) := not_le.mpr hr
    refine ⟨by simp [apply_split, hne], ?_⟩
    unfold get_total_cost_basis apply_split
    rw [if_neg hne]
    simp only [List.map_map]
    congr 1
    refine List.map_congr_left (fun l _ => ?_)
    simp only [Function.comp_apply]
    by_cases h0 : l.remaining_qty ≤ 0
    · have hz : l.remaining_qty * r ≤ 0 :=
        mul_nonpos_iff.mpr (Or.inr ⟨h0, le_of_lt hr⟩)
      simp [h0, hz]
    · have hpos : 0 < l.remaining_qty * r := mul_pos (lt_of_not_ge h0) hr
      have hz : ¬ (l.remaining_qty * r ≤ 0) := not_le.mpr hpos
      rw [if_neg hz, if_neg h0]
      have hrne : r ≠ 0 := ne_of_gt hr
      have h1 : l.remaining_qty * r * (l.price / r) =
          l.remaining_qty * l.price := by
        field_simp
        ring
      have h2 : l.fees * (l.remaining_qty * r) / (l.quantity * r) =
          l.fees * l.remaining_qty / l.quantity := by
        rw [show l.fees * (l.remaining_qty * r) =
          l.fees * l.remaining_qty * r by ring]
        exact mul_div_mul_right _ _ hrne
      rw [h1, h2]
  · intro hle
    unfold apply_split
    rw [if_pos hle]

/-- Witness for C7: a 2:1 split of a two-lot tracker (one lot with fees and
a partially sold position, one fully sold lot), and a no-op ratio of −1. -/
theorem split_scales_lots_witness :
    ((apply_split ⟨[⟨⟨2023, 1, 1⟩, 100, 50, 10, 60, "lot-0"⟩,
        ⟨⟨2023, 2, 1⟩, 40, 25, 0, 0, "lot-1"⟩], 2⟩ 2).lots =
      ([⟨⟨2023, 1, 1⟩, 100, 50, 10, 60, "lot-0"⟩,
        ⟨⟨2023, 2, 1⟩, 40, 25, 0, 0, "lot-1"⟩] : List TaxLot).map (fun l =>
        { l with
          quantity := l.quantity * 2,
          remaining_qty := l.remaining_qty * 2,
          price := l.price / 2 }) ∧
     get_total_cost_basis (apply_split ⟨[⟨⟨2023, 1, 1⟩, 100, 50, 10, 60, "lot-0"⟩,
        ⟨⟨2023, 2, 1⟩, 40, 25, 0, 0, "lot-1"⟩], 2⟩ 2) =
      get_total_cost_basis ⟨[⟨⟨2023, 1, 1⟩, 100, 50, 10, 60, "lot-0"⟩,
        ⟨⟨2023, 2, 1⟩, 40, 25, 0, 0, "lot-1"⟩], 2⟩) ∧
    apply_split ⟨[⟨⟨2023, 1, 1⟩, 100, 50, 10, 60, "lot-0"⟩,
        ⟨⟨2023, 2, 1⟩, 40, 25, 0, 0, "lot-1"⟩], 2⟩ (-1) =
      ⟨[⟨⟨2023, 1, 1⟩, 100, 50, 10, 60, "lot-0"⟩,
        ⟨⟨2023, 2, 1⟩, 40, 25, 0, 0, "lot-1"⟩], 2⟩ :=
  ⟨(split_scales_lots_and_preserves_basis _ 2).1 (by norm_num),
   (split_scales_lots_and_preserves_basis _ (-1)).2 (by norm_num)⟩

/-- C1 counterexample: a specific-identification sell that fails because the
listed lots hold fewer shares than requested (`lot-0` holds 10 of the 50
requested, while unlisted `lot-1` could cover the rest) raises only after
draining the listed lot: `lot-0.remaining_qty` is 0 after the failed call,
not its pre-call value 10, so the failed `sell` did mutate lot state. -/
theorem sell_specific_partial_mutation :
    sell ⟨[⟨⟨2023, 1, 1⟩, 10, 50, 0, 10, "lot-0"⟩,
        ⟨⟨2024, 1, 1⟩, 100, 70, 0, 100, "lot-1"⟩], 2⟩ ⟨2024, 6, 1⟩ 50 80 0
        "specific_id" ["lot-0"] =
      (⟨[⟨⟨2023, 1, 1⟩, 10, 50, 0, 0, "lot-0"⟩,
        ⟨⟨2024, 1, 1⟩, 100, 70, 0, 100, "lot-1"⟩], 2⟩,
       Except.error "Insufficient shares in specified lots") ∧
    (⟨[⟨⟨2023, 1, 1⟩, 10, 50, 0, 0, "lot-0"⟩,
        ⟨⟨2024, 1, 1⟩, 100, 70, 0, 100, "lot-1"⟩], 2⟩ : CostBasisTracker) ≠
      ⟨[⟨⟨2023, 1, 1⟩, 10, 50, 0, 10, "lot-0"⟩,
        ⟨⟨2024, 1, 1⟩, 100, 70, 0, 100, "lot-1"⟩], 2⟩ := by
  constructor
  · norm_num [sell, get_total_shares, shareEpsilon, sell_specific,
      sellSpecificLoop, findLotLast, updateLastLot, updateFirstLot,
      eq_false (by decide : ¬ ("specific_id" : String) = "fifo"),
      eq_false (by decide : ¬ ("specific_id" : String) = "lifo"),
      eq_false (by decide : ¬ ("specific_id" : String) = "average_cost"),
      eq_false (by decide : ¬ ("lot-1" : String) = "lot-0")]
  · simp only [ne_eq, CostBasisTracker.mk.injEq, List.cons.injEq,
      TaxLot.mk.injEq]
    norm_num

/-- C1 amended: the error paths that validate before touching any lot —
insufficient total shares, unknown method, `specific_id` without lot ids,
and an unknown specific lot id — return the tracker unchanged; only the
under-funded specific-id failure (see the counterexample) mutates state
before raising. -/
theorem sell_validating_failures_leave_state (t : CostBasisTracker)
    (d : Ymd) (q p f : ℚ) (m : String) (lids : List String) :
    (get_total_shares t + shareEpsilon < q →
      sell t d q p f m lids = (t, Except.error "Insufficient shares")) ∧
    (¬ (get_total_shares t + shareEpsilon < q) →
      m ∉ (["fifo", "lifo", "average_cost", "specific_id"] : List String) →
      sell t d q p f m lids = (t, Except.error "Unknown method")) ∧
    (¬ (get_total_shares t + shareEpsilon < q) → m = "specific_id" →
      lids = [] →
      sell t d q p f m lids =
        (t, Except.error "lot_ids required for specific_id method")) ∧
    (¬ (get_total_shares t + shareEpsilon < q) → m = "specific_id" →
      lids ≠ [] →
      lids.any (fun lid => !(t.lots.any (fun l => l.lot_id = lid))) = true →
      sell t d q p f m lids = (t, Except.error "Lot not found")) := by
  refine ⟨fun h => ?_, fun h hm => ?_, fun h hm hl => ?_, fun h hm hl hmiss => ?_⟩
  · unfold sell
    rw [if_pos h]
  · unfold sell
    rw [if_neg h]
    simp only [List.mem_cons, List.mem_singleton, not_or] at hm
    rw [if_neg hm.1, if_neg hm.2.1, if_neg hm.2.2.1, if_neg hm.2.2.2.1]
  · subst hm
    subst hl
    unfold sell
    rw [if_neg h,
      if_neg (by decide : ¬ ("specific_id" : String) = "fifo"),
      if_neg (by decide : ¬ ("specific_id" : String) = "lifo"),
      if_neg (by decide : ¬ ("specific_id" : String) = "average_cost"),
      if_pos (rfl : ("specific_id" : String) = "specific_id"),
      if_pos (rfl : ([] : List String) = [])]
  · subst hm
    unfold sell
    rw [if_neg h,
      if_neg (by decide : ¬ ("specific_id" : String) = "fifo"),
      if_neg (by decide : ¬ ("specific_id" : String) = "lifo"),
      if_neg (by decide : ¬ ("specific_id" : String) = "average_cost"),
      if_pos (rfl : ("specific_id" : String) = "specific_id"),
      if_neg hl]
    unfold sell_specific
    rw [if_pos hmiss]

/-- Witness for C1 amended: the four validating error paths at concrete
inputs on a one-lot tracker (50 shares). -/
theorem sell_validating_failures_witness :
    sell ⟨[⟨⟨2023, 1, 1⟩, 50, 50, 0, 50, "lot-0"⟩], 1⟩ ⟨2024, 6, 1⟩ 100 80 0
        "fifo" [] =
      (⟨[⟨⟨2023, 1, 1⟩, 50, 50, 0, 50, "lot-0"⟩], 1⟩,
       Except.error "Insufficient shares") ∧
    sell ⟨[⟨⟨2023, 1, 1⟩, 50, 50, 0, 50, "lot-0"⟩], 1⟩ ⟨2024, 6, 1⟩ 10 80 0
        "random" [] =
      (⟨[⟨⟨2023, 1, 1⟩, 50, 50, 0, 50, "lot-0"⟩], 1⟩,
       Except.error "Unknown method") ∧
    sell ⟨[⟨⟨2023, 1, 1⟩, 50, 50, 0, 50, "lot-0"⟩], 1⟩ ⟨2024, 6, 1⟩ 10 80 0
        "specific_id" [] =
      (⟨[⟨⟨2023, 1, 1⟩, 50, 50, 0, 50, "lot-0"⟩], 1⟩,
       Except.error "lot_ids required for specific_id method") ∧
    sell ⟨[⟨⟨2023, 1, 1⟩, 50, 50, 0, 50, "lot-0"⟩], 1⟩ ⟨2024, 6, 1⟩ 10 80 0
        "specific_id" ["bogus"] =
      (⟨[⟨⟨2023, 1, 1⟩, 50, 50, 0, 50, "lot-0"⟩], 1⟩,
       Except.error "Lot not found") :=
  ⟨(sell_validating_failures_leave_state _ _ _ _ _ _ _).1
      (by norm_num [get_total_shares, shareEpsilon]),
   (sell_validating_failures_leave_state _ _ _ _ _ _ _).2.1
      (by norm_num [get_total_shares, shareEpsilon]) (by decide),
   (sell_validating_failures_leave_state _ _ _ _ _ _ _).2.2.1
      (by norm_num [get_total_shares, shareEpsilon]) rfl rfl,
   (sell_validating_failures_leave_state _ _ _ _ _ _ _).2.2.2
      (by norm_num [get_total_shares, shareEpsilon]) rfl (by decide) (by decide)⟩

/-- C9: in the `guyton_klinger` branch of `_compute_withdrawal`, the
per-trial portfolio values handed to `guyton_klinger_withdrawal` are the
current and previous values clamped to a minimum of 1.0 — both at least 1,
hence nonzero, so the guardrail divisions by them never divide by zero —
and a fully depleted trial (value 0) is passed exactly 1. -/
theorem compute_withdrawal_gk_clamps (W : ℚ) (year : ℕ) (infl : ℚ)
    (pv prev : List ℚ) (initialP : ℚ) (i : ℕ) (x y : ℚ)
    (hx : pv[i]? = some x) (hy : prev[i]? = some y) :
    (compute_withdrawal "guyton_klinger" W year infl pv initialP prev)[i]? =
      some (guyton_klinger_withdrawal W year infl (max x 1) (max y 1)) ∧
    1 ≤ max x 1 ∧ max x 1 ≠ 0 ∧ 1 ≤ max y 1 ∧ max y 1 ≠ 0 ∧
    (x = 0 → max x 1 = 1) := by
  refine ⟨?_, le_max_right x 1, ?_, le_max_right y 1, ?_, ?_⟩
  · unfold compute_withdrawal
    rw [if_neg (by decide : ¬ ("guyton_klinger" : String) = "constant_dollar"),
      if_neg (by decide : ¬ ("guyton_klinger" : String) = "constant_percentage"),
      if_pos (rfl : ("guyton_klinger" : String) = "guyton_klinger")]
    exact (List.getElem?_zipWith_eq_some).mpr ⟨x, y, hx, hy, rfl⟩
  · exact ne_of_gt (lt_of_lt_of_le one_pos (le_max_right x 1))
  · exact ne_of_gt (lt_of_lt_of_le one_pos (le_max_right y 1))
  · intro h0
    rw [h0]
    exact max_eq_right (by norm_num)

/-- Witness for C9 on a depleted trial (current and previous value 0) next
to a live trial. -/
theorem compute_withdrawal_gk_clamps_witness :
    (compute_withdrawal "guyton_klinger" 40 1 (3 / 100) [0, 50] 1000
        [0, 100])[0]? =
      some (guyton_klinger_withdrawal 40 1 (3 / 100) (max 0 1) (max 0 1)) ∧
    1 ≤ max (0 : ℚ) 1 ∧ max (0 : ℚ) 1 ≠ 0 ∧ 1 ≤ max (0 : ℚ) 1 ∧
    max (0 : ℚ) 1 ≠ 0 ∧ ((0 : ℚ) = 0 → max (0 : ℚ) 1 = 1) :=
  compute_withdrawal_gk_clamps 40 1 (3 / 100) [0, 50] [0, 100] 1000 0 0 0
    rfl rfl

/-- C10 counterexample: with lots of 100 and 100 shares and a FIFO sell of
`100 + 1e-10` shares, the residual `1e-10` after the first lot is within
the `1e-9` break tolerance, so the loop stops: the sale succeeds but only
100 shares are reported sold (≠ the requested quantity) and the tracker's
total drops by 100, not by the requested quantity. -/
theorem fifo_tolerance_break_loses_residual :
    (sell ⟨[⟨⟨2023, 1, 1⟩, 100, 10, 0, 100, "lot-0"⟩,
        ⟨⟨2023, 2, 1⟩, 100, 10, 0, 100, "lot-1"⟩], 2⟩ ⟨2023, 6, 1⟩
        (100 + 1 / 10000000000) 10 0 "fifo" []).2 =
      Except.ok [⟨⟨2023, 1, 1⟩, 100, 1000, 1000, 0, "short_term"⟩] ∧
    sumQtySold [⟨⟨2023, 1, 1⟩, 100, 1000, 1000, 0, "short_term"⟩] ≠
      100 + 1 / 10000000000 ∧
    get_total_shares (sell ⟨[⟨⟨2023, 1, 1⟩, 100, 10, 0, 100, "lot-0"⟩,
        ⟨⟨2023, 2, 1⟩, 100, 10, 0, 100, "lot-1"⟩], 2⟩ ⟨2023, 6, 1⟩
        (100 + 1 / 10000000000) 10 0 "fifo" []).1 ≠
      get_total_shares ⟨[⟨⟨2023, 1, 1⟩, 100, 10, 0, 100, "lot-0"⟩,
        ⟨⟨2023, 2, 1⟩, 100, 10, 0, 100, "lot-1"⟩], 2⟩ -
        (100 + 1 / 10000000000) := by
  refine ⟨?_, by norm_num [sumQtySold], ?_⟩
  · norm_num [sell, dispose_ordered, sellFromLots, get_total_shares,
      shareEpsilon, holding_period, daysBetween, daysFromCivil, longTermDays,
      min_def]
  · norm_num [sell, dispose_ordered, sellFromLots, get_total_shares,
      shareEpsilon, holding_period, daysBetween, daysFromCivil, longTermDays,
      min_def]

/-- C10 amended: a successful FIFO or LIFO sell of a nonnegative quantity
`q ≤` total remaining shares reports a sold total within the `1e-9` break
tolerance of `q` (and never more than `q`), proceeds summing to
`(q·price − fees)` scaled by the fraction of `q` actually sold — exactly
`q·price − fees` whenever the sold total reaches `q` — and the tracker's
total remaining shares drop by exactly the sold total. -/
theorem sell_fifo_lifo_conservation (t : CostBasisTracker) (d : Ymd)
    (q p f : ℚ) (m : String) (hm : m = "fifo" ∨ m = "lifo")
    (h0 : 0 ≤ q) (hq : q ≤ get_total_shares t) :
    ∃ ds t', sell t d q p f m [] = (t', Except.ok ds) ∧
      0 ≤ sumQtySold ds ∧ sumQtySold ds ≤ q ∧
      q - sumQtySold ds ≤ shareEpsilon ∧
      sumProceeds ds = (q * p - f) * sumQtySold ds / q ∧
      get_total_shares t' = get_total_shares t - sumQtySold ds := by
  have heps : (0 : ℚ) < shareEpsilon := by norm_num [shareEpsilon]
  have hguard : ¬ (get_total_shares t + shareEpsilon < q) := by linarith
  have hts : get_total_shares t = lotsShares t.lots := rfl
  have hple := lotsShares_le_posShares t.lots
  rcases hm with hfifo | hlifo
  · subst hfifo
    have hsell : sell t d q p f "fifo" [] =
        ({ t with lots := (sellFromLots d q (q * p - f) q t.lots).2 },
         Except.ok (sellFromLots d q (q * p - f) q t.lots).1) := by
      unfold sell dispose_ordered
      rw [if_neg hguard]
      simp
    refine ⟨_, _, hsell,
      (sellFromLots_sold_bounds d q (q * p - f) t.lots q h0).1,
      (sellFromLots_sold_bounds d q (q * p - f) t.lots q h0).2, ?_,
      sellFromLots_proceeds d q (q * p - f) t.lots q, ?_⟩
    · rcases sellFromLots_shortfall d q (q * p - f) t.lots q with hl | hr
      · exact hl
      · rw [hts] at hq
        linarith
    · show lotsShares (sellFromLots d q (q * p - f) q t.lots).2 = _
      rw [sellFromLots_shares d q (q * p - f) t.lots q, hts]
  · subst hlifo
    have hsell : sell t d q p f "lifo" [] =
        ({ t with
            lots := (sellFromLots d q (q * p - f) q t.lots.reverse).2.reverse },
         Except.ok (sellFromLots d q (q * p - f) q t.lots.reverse).1) := by
      unfold sell dispose_ordered
      rw [if_neg hguard, if_neg (by decide : ¬ ("lifo" : String) = "fifo")]
      simp
    have hq' : q ≤ lotsShares t.lots.reverse := by
      rw [lotsShares_reverse]
      exact hts ▸ hq
    refine ⟨_, _, hsell,
      (sellFromLots_sold_bounds d q (q * p - f) t.lots.reverse q h0).1,
      (sellFromLots_sold_bounds d q (q * p - f) t.lots.reverse q h0).2, ?_,
      sellFromLots_proceeds d q (q * p - f) t.lots.reverse q, ?_⟩
    · rcases sellFromLots_shortfall d q (q * p - f) t.lots.reverse q with hl | hr
      · exact hl
      · have := lotsShares_le_posShares t.lots.reverse
        rw [lotsShares_reverse] at this
        rw [hts] at hq
        linarith
    · show lotsShares (sellFromLots d q (q * p - f) q t.lots.reverse).2.reverse = _
      rw [lotsShares_reverse,
        sellFromLots_shares d q (q * p - f) t.lots.reverse q,
        lotsShares_reverse, hts]

/-- Witness for C10 amended: a FIFO sell of 40 from a 100-share lot. -/
theorem sell_fifo_lifo_conservation_witness :
    ∃ ds t', sell ⟨[⟨⟨2023, 1, 1⟩, 100, 50, 0, 100, "lot-0"⟩], 1⟩
        ⟨2024, 6, 1⟩ 40 80 0 "fifo" [] = (t', Except.ok ds) ∧
      0 ≤ sumQtySold ds ∧ sumQtySold ds ≤ 40 ∧
      40 - sumQtySold ds ≤ shareEpsilon ∧
      sumProceeds ds = (40 * 80 - 0) * sumQtySold ds / 40 ∧
      get_total_shares t' =
        get_total_shares ⟨[⟨⟨2023, 1, 1⟩, 100, 50, 0, 100, "lot-0"⟩], 1⟩ -
          sumQtySold ds :=
  sell_fifo_lifo_conservation ⟨[⟨⟨2023, 1, 1⟩, 100, 50, 0, 100, "lot-0"⟩], 1⟩
    ⟨2024, 6, 1⟩ 40 80 0 "fifo" (Or.inl rfl) (by norm_num)
    (by norm_num [get_total_shares])

/-- Every return the bootstrap hands to the simulation is drawn from the
historical list. -/
theorem bootstrap_returns_mem (hist : List ℚ) (nS nY seed : ℕ)
    (ret : ℕ → ℕ → ℚ)
    (h : bootstrap_returns hist nS nY seed = Except.ok ret) :
    ∀ i j, ret i j ∈ hist := by
  unfold bootstrap_returns at h
  split_ifs at h with he
  have hlen0 : hist.length ≠ 0 := by
    intro hc
    exact he (List.isEmpty_iff_length_eq_zero.mpr hc)
  have hr := Except.ok.inj h
  intro i j
  rw [← hr]
  show hist.getD (sampleIndex seed hist.length i j) 0 ∈ hist
  have hlt : sampleIndex seed hist.length i j < hist.length := by
    unfold sampleIndex
    rw [if_neg hlen0]
    exact Nat.mod_lt _ (Nat.pos_of_ne_zero hlen0)
  rw [List.getD_eq_getElem?_getD, List.getElem?_eq_getElem hlt]
  exact List.getElem_mem hlt

/-- Every value a `run_simulation` year-step emits is floored at 0. -/
theorem simStep_mem_nonneg (ret : ℕ → ℕ → ℚ) (wds : ℕ → ℚ) (yr : ℕ)
    (cur : List ℚ) : ∀ v ∈ simStep ret wds yr cur, 0 ≤ v := by
  intro v hv
  rcases List.mem_map.mp hv with ⟨p, _, rfl⟩
  exact le_max_right _ 0

/-- Every value a `run_scenario` year-step emits is floored at 0. -/
theorem scenStep_mem_nonneg (ret : ℕ → ℕ → ℚ) (strategy : String)
    (w infl initial : ℚ) (events : List LifeEventRec) (yr : ℕ)
    (prevCol cur : List ℚ) :
    ∀ v ∈ scenStep ret strategy w infl initial events yr prevCol cur,
      0 ≤ v := by
  intro v hv
  rcases List.mem_map.mp hv with ⟨p, _, rfl⟩
  exact le_max_right _ 0

/-- A property that holds of every output column of a step function holds of
every column the year loop produces. -/
theorem runYears_forall_out (step : ℕ → List ℚ → List ℚ → List ℚ)
    (P : List ℚ → Prop) (hstep : ∀ yr prev cur, P (step yr prev cur)) :
    ∀ (k yr : ℕ) (prev cur : List ℚ),
      ∀ col ∈ runYears step k yr prev cur, P col := by
  intro k
  induction k with
  | zero =>
    intro yr prev cur col hc
    simp [runYears] at hc
  | succ n ih =>
    intro yr prev cur col hc
    rw [runYears] at hc
    rcases List.mem_cons.mp hc with rfl | hmem
    · exact hstep yr prev cur
    · exact ih (yr + 1) cur (step yr prev cur) col hmem

/-- A step-preserved property of the current column holds of every column
the year loop produces. -/
theorem runYears_forall (step : ℕ → List ℚ → List ℚ → List ℚ)
    (P : List ℚ → Prop)
    (hstep : ∀ yr prev cur, P cur → P (step yr prev cur)) :
    ∀ (k yr : ℕ) (prev cur : List ℚ), P cur →
      ∀ col ∈ runYears step k yr prev cur, P col := by
  intro k
  induction k with
  | zero =>
    intro yr prev cur _ col hc
    simp [runYears] at hc
  | succ n ih =>
    intro yr prev cur h col hc
    rw [runYears] at hc
    rcases List.mem_cons.mp hc with rfl | hmem
    · exact hstep yr prev cur h
    · exact ih (yr + 1) cur (step yr prev cur) (hstep yr prev cur h) col hmem

/-- C6 counterexample: with a negative starting portfolio (−100), the
returned matrix's year-0 column holds that negative value — the floor at 0
only guards the per-year updates, not the initial column. -/
theorem negative_initial_gives_negative_entry :
    (run_simulation (-100) 0 [0] 1 0 0 0).map SimResult.portfolioValues =
      Except.ok [[-100]] ∧ ((-100 : ℚ) < 0) := by
  constructor
  · norm_num [run_simulation, bootstrap_returns, runYears, Except.map]
  · norm_num

/-- C6 amended: in both `run_simulation` and `run_scenario`, every entry of
every column after year 0 is ≥ 0 (each update floors at 0), and when the
initial portfolio is nonnegative every entry of the whole matrix is ≥ 0. -/
theorem portfolio_values_nonneg (initial w : ℚ) (hist : List ℚ)
    (strategy : String) (events : List LifeEventRec) (infl : ℚ)
    (nT nY seed : ℕ) :
    (∀ res, run_simulation initial w hist nT nY infl seed = Except.ok res →
      (∀ col ∈ res.portfolioValues.tail, ∀ v ∈ col, 0 ≤ v) ∧
      (0 ≤ initial → ∀ col ∈ res.portfolioValues, ∀ v ∈ col, 0 ≤ v)) ∧
    (∀ res, run_scenario initial w hist strategy events infl nT nY seed =
        Except.ok res →
      (∀ col ∈ res.portfolioValues.tail, ∀ v ∈ col, 0 ≤ v) ∧
      (0 ≤ initial → ∀ col ∈ res.portfolioValues, ∀ v ∈ col, 0 ≤ v)) := by
  constructor
  · intro res hres
    unfold run_simulation at hres
    cases hb : bootstrap_returns hist nT nY seed with
    | error e =>
      rw [hb] at hres
      simp at hres
    | ok ret =>
      rw [hb] at hres
      have hr := Except.ok.inj hres
      subst hr
      have htail : ∀ col ∈ (runYears (fun yr _ cur =>
          simStep ret (fun yr2 => w * (1 + infl) ^ yr2) yr cur) nY 0
          (List.replicate nT initial) (List.replicate nT initial)),
          ∀ v ∈ col, 0 ≤ v :=
        runYears_forall_out _ _
          (fun yr prev cur => simStep_mem_nonneg ret _ yr cur) nY 0 _ _
      refine ⟨htail, fun h0 col hcol v hv => ?_⟩
      rcases List.mem_cons.mp hcol with rfl | hmem
      · rcases List.mem_replicate.mp hv with ⟨_, rfl⟩
        exact h0
      · exact htail col hmem v hv
  · intro res hres
    unfold run_scenario at hres
    cases hb : bootstrap_returns hist nT nY seed with
    | error e =>
      rw [hb] at hres
      simp at hres
    | ok ret =>
      rw [hb] at hres
      have hr := Except.ok.inj hres
      subst hr
      have htail : ∀ col ∈ (runYears (scenStep ret strategy w infl initial
          events) nY 0 (List.replicate nT initial) (List.replicate nT initial)),
          ∀ v ∈ col, 0 ≤ v :=
        runYears_forall_out _ _
          (fun yr prev cur =>
            scenStep_mem_nonneg ret strategy w infl initial events yr prev cur)
          nY 0 _ _
      refine ⟨htail, fun h0 col hcol v hv => ?_⟩
      rcases List.mem_cons.mp hcol with rfl | hmem
      · rcases List.mem_replicate.mp hv with ⟨_, rfl⟩
        exact h0
      · exact htail col hmem v hv

/-- C3 counterexample: with zero withdrawal but a historical return of
−100%, the single trial's portfolio is wiped out (100 → 0), so
`success_rate` is 0, not the claimed 1.0, even though the return
distribution is non-empty. -/
theorem zero_withdrawal_not_always_success :
    (run_simulation 100 0 [-1] 1 1 0 0).map SimResult.successRate =
      Except.ok 0 ∧ (0 : ℚ) ≠ 1 := by
  constructor
  · norm_num [run_simulation, bootstrap_returns, sampleIndex, runYears,
      simStep, successRateOf, max_def, List.enum_singleton, List.countP_cons,
      List.getLastD_cons, List.getLastD_nil, Except.map]
  · norm_num

/-- C3 amended: for at least one trial, `success_rate` lies in [0, 1] and
equals the fraction of trials whose final-year value is strictly positive;
and with zero withdrawal it is exactly 1 provided the initial portfolio is
positive and every historical return is strictly greater than −100% (a
return ≤ −1, or a nonpositive starting value, zeroes trials out). -/
theorem run_simulation_success_rate (initial w : ℚ) (hist : List ℚ)
    (nT nY : ℕ) (infl : ℚ) (seed : ℕ) (res : SimResult)
    (hres : run_simulation initial w hist nT nY infl seed = Except.ok res)
    (hT : 1 ≤ nT) :
    (0 ≤ res.successRate ∧ res.successRate ≤ 1) ∧
    res.successRate =
      (((res.portfolioValues.getLastD []).countP
        (fun v => decide (0 < v)) : ℕ) : ℚ) / (nT : ℚ) ∧
    (w = 0 → 0 < initial → (∀ r ∈ hist, -1 < r) → res.successRate = 1) := by
  unfold run_simulation at hres
  cases hb : bootstrap_returns hist nT nY seed with
  | error e =>
    rw [hb] at hres
    simp at hres
  | ok ret =>
    rw [hb] at hres
    have hr := Except.ok.inj hres
    subst hr
    have hnT : (0 : ℚ) < (nT : ℚ) := by
      exact_mod_cast Nat.lt_of_lt_of_le Nat.zero_lt_one hT
    have hstepLen : ∀ (yr : ℕ) (prev cur : List ℚ), cur.length = nT →
        (simStep ret (fun yr2 => w * (1 + infl) ^ yr2) yr cur).length = nT := by
      intro yr prev cur h
      simpa [simStep] using h
    have hcolsLen : ∀ col ∈ (List.replicate nT initial ::
        runYears (fun yr _ cur =>
          simStep ret (fun yr2 => w * (1 + infl) ^ yr2) yr cur) nY 0
          (List.replicate nT initial) (List.replicate nT initial)),
        col.length = nT := by
      intro col hcol
      rcases List.mem_cons.mp hcol with rfl | hmem
      · exact List.length_replicate nT initial
      · exact runYears_forall _ (fun c => c.length = nT)
          (fun yr prev cur h => hstepLen yr prev cur h) nY 0 _ _
          (List.length_replicate nT initial) col hmem
    have hlastMem : (List.replicate nT initial ::
        runYears (fun yr _ cur =>
          simStep ret (fun yr2 => w * (1 + infl) ^ yr2) yr cur) nY 0
          (List.replicate nT initial) (List.replicate nT initial)).getLastD []
        ∈ (List.replicate nT initial ::
        runYears (fun yr _ cur =>
          simStep ret (fun yr2 => w * (1 + infl) ^ yr2) yr cur) nY 0
          (List.replicate nT initial) (List.replicate nT initial)) := by
      rw [List.getLastD_cons]
      exact List.getLastD_mem_cons _ _
    have hlastLen := hcolsLen _ hlastMem
    refine ⟨⟨?_, ?_⟩, rfl, ?_⟩
    · exact div_nonneg (Nat.cast_nonneg _) (Nat.cast_nonneg _)
    · rw [show SimResult.successRate ⟨_, successRateOf _ nT⟩ =
        successRateOf _ nT from rfl]
      unfold successRateOf
      rw [div_le_one hnT]
      exact_mod_cast le_trans (List.countP_le_length _) (le_of_eq hlastLen)
    · intro hw h0 hall
      subst hw
      have hposstep : ∀ (yr : ℕ) (prev cur : List ℚ), (∀ v ∈ cur, 0 < v) →
          ∀ v ∈ simStep ret (fun yr2 => 0 * (1 + infl) ^ yr2) yr cur,
            0 < v := by
        intro yr prev cur hcur v hv
        rcases List.mem_map.mp hv with ⟨p, hp, rfl⟩
        have hp2 : p.2 ∈ cur := List.snd_mem_of_mem_enumFrom hp
        have hr1 : ret p.1 yr ∈ hist :=
          bootstrap_returns_mem hist nT nY seed ret hb p.1 yr
        have h1r : (-1 : ℚ) < ret p.1 yr := hall _ hr1
        have hv2 : 0 < p.2 := hcur _ hp2
        have hpc : 0 < p.2 * (1 + ret p.1 yr) - 0 * (1 + infl) ^ yr := by
          have hg : (0 : ℚ) < 1 + ret p.1 yr := by linarith
          nlinarith
        exact lt_of_lt_of_le hpc (le_max_left _ _)
      have hcolpos : ∀ col ∈ (List.replicate nT initial ::
          runYears (fun yr _ cur =>
            simStep ret (fun yr2 => 0 * (1 + infl) ^ yr2) yr cur) nY 0
            (List.replicate nT initial) (List.replicate nT initial)),
          ∀ v ∈ col, 0 < v := by
        intro col hcol
        rcases List.mem_cons.mp hcol with rfl | hmem
        · intro v hv
          rcases List.mem_replicate.mp hv with ⟨_, rfl⟩
          exact h0
        · exact runYears_forall _ (fun c => ∀ v ∈ c, 0 < v)
            (fun yr prev cur h => hposstep yr prev cur h) nY 0 _ _
            (fun v hv => by
              rcases List.mem_replicate.mp hv with ⟨_, rfl⟩
              exact h0) col hmem
      have hlastPos := hcolpos _ hlastMem
      show successRateOf _ nT = 1
      unfold successRateOf
      rw [List.countP_eq_length.mpr
        (fun a ha => decide_eq_true (hlastPos a ha)), hlastLen]
      exact div_self (ne_of_gt hnT)

/-- Witness for C3 amended: one trial, one year, +10% return, zero
withdrawal — the success rate is 1 and all bounds hold. -/
theorem run_simulation_success_rate_witness :
    (0 ≤ SimResult.successRate ⟨[[(100 : ℚ)], [110]], 1⟩ ∧
      SimResult.successRate ⟨[[(100 : ℚ)], [110]], 1⟩ ≤ 1) ∧
    SimResult.successRate ⟨[[(100 : ℚ)], [110]], 1⟩ =
      ((((SimResult.portfolioValues ⟨[[(100 : ℚ)], [110]], 1⟩).getLastD
        []).countP (fun v => decide (0 < v)) : ℕ) : ℚ) / ((1 : ℕ) : ℚ) ∧
    ((0 : ℚ) = 0 → (0 : ℚ) < 100 → (∀ r ∈ [(1 : ℚ) / 10], -1 < r) →
      SimResult.successRate ⟨[[(100 : ℚ)], [110]], 1⟩ = 1) := by
  have h1 : run_simulation 100 0 [1 / 10] 1 1 0 0 =
      Except.ok ⟨[[(100 : ℚ)], [110]], 1⟩ := by
    norm_num [run_simulation, bootstrap_returns, sampleIndex, runYears,
      simStep, successRateOf, max_def, List.enum_singleton,
      List.countP_cons, List.getLastD_cons, List.getLastD_nil]
  exact run_simulation_success_rate 100 0 [1 / 10] 1 1 0 0
    ⟨[[(100 : ℚ)], [110]], 1⟩ h1 (le_refl 1)

/-- Witness for C6 amended: both entry points at a one-trial, one-year run
with nonnegative initial portfolio 100. -/
theorem portfolio_values_nonneg_witness :
    ((∀ col ∈ (SimResult.portfolioValues ⟨[[(100 : ℚ)], [110]], 1⟩).tail,
        ∀ v ∈ col, 0 ≤ v) ∧
      (0 ≤ (100 : ℚ) →
        ∀ col ∈ (SimResult.portfolioValues ⟨[[(100 : ℚ)], [110]], 1⟩),
          ∀ v ∈ col, 0 ≤ v)) ∧
    ((∀ col ∈ (SimResult.portfolioValues ⟨[[(100 : ℚ)], [110]], 1⟩).tail,
        ∀ v ∈ col, 0 ≤ v) ∧
      (0 ≤ (100 : ℚ) →
        ∀ col ∈ (SimResult.portfolioValues ⟨[[(100 : ℚ)], [110]], 1⟩),
          ∀ v ∈ col, 0 ≤ v)) := by
  have h1 : run_simulation 100 0 [1 / 10] 1 1 0 0 =
      Except.ok ⟨[[(100 : ℚ)], [110]], 1⟩ := by
    norm_num [run_simulation, bootstrap_returns, sampleIndex, runYears,
      simStep, successRateOf, max_def, List.enum_singleton,
      List.countP_cons, List.getLastD_cons, List.getLastD_nil]
  have h2 : run_scenario 100 0 [1 / 10] "constant_dollar" [] 0 1 1 0 =
      Except.ok ⟨[[(100 : ℚ)], [110]], 1⟩ := by
    norm_num [run_scenario, bootstrap_returns, sampleIndex, runYears,
      scenStep, compute_withdrawal, constant_dollar_withdrawal,
      compute_event_adjustment, successRateOf, max_def, List.enum_singleton,
      List.countP_cons, List.getLastD_cons, List.getLastD_nil]
  exact ⟨(portfolio_values_nonneg 100 0 [1 / 10] "constant_dollar" [] 0
      1 1 0).1 _ h1,
    (portfolio_values_nonneg 100 0 [1 / 10] "constant_dollar" [] 0
      1 1 0).2 _ h2⟩

/-- Every record the per-key report emits carries that key. -/
theorem reportKey_keys (c s : List Holding) (k : String × String) :
    ∀ d ∈ reportKey c s k, d.account_id = k.1 ∧ d.symbol = k.2 := by
  intro d hd
  revert hd
  unfold reportKey
  cases holdingLookup c k <;> cases holdingLookup s k
  · intro hd
    rcases List.mem_singleton.mp hd with rfl
    exact ⟨rfl, rfl⟩
  · intro hd
    rcases List.mem_singleton.mp hd with rfl
    exact ⟨rfl, rfl⟩
  · intro hd
    rcases List.mem_singleton.mp hd with rfl
    exact ⟨rfl, rfl⟩
  · intro hd
    unfold compare_field at hd
    rcases List.mem_append.mp hd with h1 | h1 <;> split_ifs at h1
    · rcases List.mem_singleton.mp h1 with rfl
      exact ⟨rfl, rfl⟩
    · cases h1
    · rcases List.mem_singleton.mp h1 with rfl
      exact ⟨rfl, rfl⟩
    · cases h1

/-- Inserting into the sorted key list is a permutation of consing. -/
theorem insertKey_perm (k : String × String) (l : List (String × String)) :
    List.Perm (insertKey k l) (k :: l) := by
  induction l with
  | nil => exact List.Perm.refl _
  | cons x xs ih =>
    unfold insertKey
    split_ifs with h
    · exact List.Perm.refl _
    · exact List.Perm.trans (List.Perm.cons x ih) (List.Perm.swap k x xs)

/-- The insertion sort over keys is a permutation. -/
theorem sortKeys_perm (l : List (String × String)) :
    List.Perm (sortKeys l) l := by
  induction l with
  | nil => exact List.Perm.refl _
  | cons x xs ih =>
    exact List.Perm.trans (insertKey_perm x (sortKeys xs))
      (List.Perm.cons x ih)

/-- The iterated key list is duplicate-free. -/
theorem allKeys_nodup (c s : List Holding) : (allKeys c s).Nodup :=
  ((sortKeys_perm _).symm).nodup (List.nodup_dedup _)

/-- A key is iterated iff it keys a holding on either side. -/
theorem mem_allKeys (c s : List Holding) (k : String × String) :
    k ∈ allKeys c s ↔ k ∈ c.map holdingKey ∨ k ∈ s.map holdingKey := by
  unfold allKeys
  rw [(sortKeys_perm _).mem_iff, List.mem_dedup, List.mem_append]

/-- A key present among a holding list's keys has a (last-wins) lookup. -/
theorem lookup_of_mem_keys (c : List Holding) (k : String × String)
    (h : k ∈ c.map holdingKey) : ∃ h0, holdingLookup c k = some h0 := by
  rcases List.mem_map.mp h with ⟨x, hx, rfl⟩
  unfold holdingLookup
  have hne : c.filter (fun h2 => decide (holdingKey h2 = holdingKey x)) ≠ [] := by
    intro hnil
    have hmem : x ∈ c.filter (fun h2 => decide (holdingKey h2 = holdingKey x)) :=
      List.mem_filter.mpr ⟨hx, by simp⟩
    rw [hnil] at hmem
    exact absurd hmem (List.not_mem_nil x)
  cases hLast : (c.filter
      (fun h2 => decide (holdingKey h2 = holdingKey x))).getLast? with
  | none => exact absurd (List.getLast?_eq_none_iff.mp hLast) hne
  | some y => exact ⟨y, rfl⟩

/-- Filtering the concatenated per-key reports by one iterated key recovers
exactly that key's report. -/
theorem filter_flatMap_eq (f : String × String → List Discrepancy)
    (k : String × String)
    (hin : ∀ d ∈ f k, decide (d.account_id = k.1 ∧ d.symbol = k.2) = true) :
    ∀ keys : List (String × String), keys.Nodup → k ∈ keys →
      (∀ k' ∈ keys, k' ≠ k → ∀ d ∈ f k',
        decide (d.account_id = k.1 ∧ d.symbol = k.2) = false) →
      (keys.flatMap f).filter
        (fun d => decide (d.account_id = k.1 ∧ d.symbol = k.2)) = f k := by
  intro keys
  induction keys with
  | nil =>
    intro _ hk _
    cases hk
  | cons k0 rest ih =>
    intro hnd hk hout
    rw [List.flatMap_cons, List.filter_append]
    rcases List.mem_cons.mp hk with rfl | hkr
    · have h1 : (f k).filter
          (fun d => decide (d.account_id = k.1 ∧ d.symbol = k.2)) = f k :=
        List.filter_eq_self.mpr hin
      have h2 : (rest.flatMap f).filter
          (fun d => decide (d.account_id = k.1 ∧ d.symbol = k.2)) = [] := by
        rw [List.filter_eq_nil_iff]
        intro d hd
        rcases List.mem_flatMap.mp hd with ⟨k', hk', hdk'⟩
        have hne : k' ≠ k := fun hcc => (List.nodup_cons.mp hnd).1 (hcc ▸ hk')
        have hf := hout k' (List.mem_cons_of_mem _ hk') hne d hdk'
        simp [hf]
      rw [h1, h2, List.append_nil]
    · have hne : k0 ≠ k := fun hcc => (List.nodup_cons.mp hnd).1 (hcc ▸ hkr)
      have h1 : (f k0).filter
          (fun d => decide (d.account_id = k.1 ∧ d.symbol = k.2)) = [] := by
        rw [List.filter_eq_nil_iff]
        intro d hd
        have hf := hout k0 (List.mem_cons_self _ _) hne d hd
        simp [hf]
      rw [h1, List.nil_append]
      exact ih (List.nodup_cons.mp hnd).2 hkr
        (fun k' hk' => hout k' (List.mem_cons_of_mem _ hk'))

/-- The discrepancies carrying an iterated key are exactly that key's
per-key report. -/
theorem detect_discrepancies_filter_eq (computed stored : List Holding)
    (k : String × String) (hk : k ∈ allKeys computed stored) :
    (detect_discrepancies computed stored).filter
      (fun d => decide (d.account_id = k.1 ∧ d.symbol = k.2)) =
      reportKey computed stored k := by
  unfold detect_discrepancies
  refine filter_flatMap_eq (reportKey computed stored) k ?_
    (allKeys computed stored) (allKeys_nodup computed stored) hk ?_
  · intro d hd
    exact decide_eq_true (reportKey_keys computed stored k d hd)
  · intro k' _ hne d hd
    rcases reportKey_keys computed stored k' d hd with ⟨h1, h2⟩
    refine decide_eq_false (fun hcc => hne ?_)
    exact Prod.ext (h1 ▸ hcc.1) (h2 ▸ hcc.2)

/-- C8: over the union of `(account_id, symbol)` keys, a key present on only
one side yields exactly one `existence` discrepancy carrying
`missing`/`present` markers; a key present on both sides yields one
discrepancy per field differing beyond its tolerance (`1e-6` for shares,
`0.01` for cost basis), carrying both values; identical computed and stored
lists yield no discrepancy at all. -/
theorem detect_discrepancies_keyed (computed stored : List Holding) :
    (computed = stored → detect_discrepancies computed stored = []) ∧
    (∀ k ∈ allKeys computed stored,
      ((holdingLookup computed k = none ∨ holdingLookup stored k = none) →
        (detect_discrepancies computed stored).filter
          (fun d => decide (d.account_id = k.1 ∧ d.symbol = k.2)) =
        [⟨k.1, k.2, "existence",
          DValue.tag (if holdingLookup computed k = none then "missing"
            else "present"),
          DValue.tag (if holdingLookup stored k = none then "missing"
            else "present")⟩]) ∧
      (∀ hc hs, holdingLookup computed k = some hc →
        holdingLookup stored k = some hs →
        (detect_discrepancies computed stored).filter
          (fun d => decide (d.account_id = k.1 ∧ d.symbol = k.2)) =
        (if shareTolerance < |hc.shares - hs.shares| then
          [⟨k.1, k.2, "shares", DValue.num hc.shares, DValue.num hs.shares⟩]
         else []) ++
        (if costTolerance < |hc.cost_basis - hs.cost_basis| then
          [⟨k.1, k.2, "cost_basis", DValue.num hc.cost_basis,
            DValue.num hs.cost_basis⟩]
         else []))) := by
  constructor
  · intro h
    subst h
    unfold detect_discrepancies
    rw [List.flatMap_eq_nil_iff]
    intro k hk
    have hkc : k ∈ computed.map holdingKey := by
      rcases (mem_allKeys computed computed k).mp hk with h1 | h1 <;> exact h1
    rcases lookup_of_mem_keys computed k hkc with ⟨h0, hl⟩
    unfold reportKey
    simp only [hl]
    unfold compare_field
    rw [if_neg (by norm_num [shareTolerance]),
      if_neg (by norm_num [costTolerance])]
    rfl
  · intro k hk
    constructor
    · intro hor
      rw [detect_discrepancies_filter_eq computed stored k hk]
      unfold reportKey
      rcases hor with hc | hs
      · cases hs0 : holdingLookup stored k <;> simp [hc, hs0]
      · cases hc0 : holdingLookup computed k <;> simp [hc0, hs]
    · intro hc hs hceq hseq
      rw [detect_discrepancies_filter_eq computed stored k hk]
      unfold reportKey
      simp only [hceq, hseq]
      unfold compare_field
      rfl

/-- Witness for C8: identical one-holding lists produce no discrepancy, and
a 10-share mismatch produces exactly one `shares` record with both values. -/
theorem detect_discrepancies_keyed_witness :
    detect_discrepancies [⟨"a", "AAPL", 100, 5000⟩]
      [⟨"a", "AAPL", 100, 5000⟩] = [] ∧
    (detect_discrepancies [⟨"a", "AAPL", 100, 5000⟩]
        [⟨"a", "AAPL", 90, 5000⟩]).filter
      (fun d => decide (d.account_id = ("a", "AAPL").1 ∧
        d.symbol = ("a", "AAPL").2)) =
    (if shareTolerance <
        |(⟨"a", "AAPL", 100, 5000⟩ : Holding).shares -
          (⟨"a", "AAPL", 90, 5000⟩ : Holding).shares| then
      [⟨("a", "AAPL").1, ("a", "AAPL").2, "shares",
        DValue.num (⟨"a", "AAPL", 100, 5000⟩ : Holding).shares,
        DValue.num (⟨"a", "AAPL", 90, 5000⟩ : Holding).shares⟩]
     else []) ++
    (if costTolerance <
        |(⟨"a", "AAPL", 100, 5000⟩ : Holding).cost_basis -
          (⟨"a", "AAPL", 90, 5000⟩ : Holding).cost_basis| then
      [⟨("a", "AAPL").1, ("a", "AAPL").2, "cost_basis",
        DValue.num (⟨"a", "AAPL", 100, 5000⟩ : Holding).cost_basis,
        DValue.num (⟨"a", "AAPL", 90, 5000⟩ : Holding).cost_basis⟩]
     else []) := by
  constructor
  · exact (detect_discrepancies_keyed _ _).1 rfl
  · exact ((detect_discrepancies_keyed [⟨"a", "AAPL", 100, 5000⟩]
      [⟨"a", "AAPL", 90, 5000⟩]).2 ("a", "AAPL")
      (by decide)).2 ⟨"a", "AAPL", 100, 5000⟩ ⟨"a", "AAPL", 90, 5000⟩
      (by decide) (by decide)

/-- Witness for C2 amended at year 1, 3% inflation, initial withdrawal 4,
previous portfolio value 100. -/
theorem guyton_klinger_guardrails_witness :
    4 * (1 + 3 / 100 : ℚ) ^ 1 <
      guyton_klinger_withdrawal 4 1 (3 / 100) (2 * 100) 100 ∧
    guyton_klinger_withdrawal 4 1 (3 / 100) (100 / 2) 100 <
      4 * (1 + 3 / 100 : ℚ) ^ 1 :=
  guyton_klinger_guardrails 4 100 (3 / 100) 1 (le_refl 1) (by norm_num)
    (by norm_num) (by norm_num) (by norm_num)
